import Mathlib

/-!
Verification development for the study-schedule generation engine
(class SchedulingEngine in src/backend/functions/src/routes/scheduleRoutes.ts,
data model in shared/types/scheduling).

Shallow embedding conventions:
- Minutes-since-midnight values, day indices and millisecond timestamps are ℤ.
- Effort hours and priority scores are ℚ (the TypeScript code computes them
  with ordinary JavaScript number arithmetic; all operations involved are
  exact on rationals).
- The string due date field is modelled as an Option ℤ: `none` is the
  literal "TBD" marker, `some t` a date that parses to timestamp t (ms).
- JavaScript Date reads are explicit parameters: `now` is the clock read by
  calculatePriority, `sessionStamp` the Date.now() used in session ids, and
  `genStamp` the timestamp stored in the schedule envelope.
- The Set<string> of used slot keys becomes a list of (day, start, end)
  triples; the string key template day-start-end is injective on these.
- Absolute session times are modelled as minutes from the week start:
  sessionDate = weekStart + day days, then setHours(floor(m / 60), m % 60)
  becomes day * 1440 + jsSetHM m, with jsSetHM using JavaScript floor
  division and truncating remainder semantics.
-/

namespace SchedEngine

/-- JavaScript setHours(Math.floor(m / 60), m % 60) collapses a minute count
to hours-and-minutes; Math.floor on a real quotient is Int.fdiv, the
JavaScript % operator is the truncating remainder Int.tmod. -/
def jsSetHM (m : ℤ) : ℤ := 60 * Int.fdiv m 60 + Int.tmod m 60

/-- Embeds the SchedulingConfig interface (shared/types/scheduling). -/
structure SchedulingConfig where
  maxSessionLength : ℤ
  minSessionLength : ℤ
  bufferTime : ℤ
  maxStudyHoursPerWeek : ℤ
deriving DecidableEq, Repr

/-- DEFAULT_SCHEDULING_CONFIG from shared/types/scheduling. -/
def DEFAULT_SCHEDULING_CONFIG : SchedulingConfig :=
  { maxSessionLength := 60, minSessionLength := 5, bufferTime := 5, maxStudyHoursPerWeek := 20 }

/-- Embeds TimeBlock: a raw busy-calendar entry. -/
structure TimeBlock where
  day : ℤ
  startTime : ℤ
  endTime : ℤ
  type : String
deriving DecidableEq, Repr

/-- Embeds TodoItem as read by the engine. `dueDate = none` is the "TBD"
marker; `estimatedHours = none` an absent field. -/
structure TodoItem where
  id : String
  title : String
  notes : Option String
  dueDate : Option ℤ
  estimatedHours : Option ℚ
  completed : Bool
  activityId : Option String
deriving DecidableEq, Repr

/-- Embeds AvailableTimeSlot; the TypeScript field named end is `stop` here
(end is a Lean keyword). -/
structure AvailableTimeSlot where
  start : ℤ
  stop : ℤ
  duration : ℤ
  day : ℤ
deriving DecidableEq, Repr

/-- Embeds TaskChunk. -/
structure TaskChunk where
  taskId : String
  title : String
  notes : Option String
  estimatedHours : ℚ
  priority : ℚ
  dueDate : Option ℤ
  activityId : Option String
  chunkIndex : ℕ
  totalChunks : ℤ
deriving DecidableEq, Repr

/-- Embeds PriorityResult; `daysUntilDue = none` models the JavaScript
Infinity stored for undated tasks. -/
structure PriorityResult where
  taskId : String
  priority : ℚ
  urgencyMultiplier : ℚ
  basePriority : ℚ
  daysUntilDue : Option ℤ
  averageHoursPerDay : ℚ
deriving DecidableEq, Repr

/-- Embeds ScheduledStudySession. startAbs/endAbs are the absolute session
start and end in minutes from the week start date. -/
structure ScheduledStudySession where
  id : String
  taskId : String
  title : String
  notes : Option String
  startAbs : ℤ
  endAbs : ℤ
  dayOfWeek : ℤ
  chunkIndex : Option ℕ
  calculatedPriority : ℚ
  activityId : Option String
deriving DecidableEq, Repr

/-- Embeds GeneratedSchedule. -/
structure GeneratedSchedule where
  userId : String
  weekStart : ℤ
  sessions : List ScheduledStudySession
  generatedAt : ℤ
  version : ℤ
deriving DecidableEq, Repr

/-- Comparator (a, b) => a[0] - b[0] used to sort busy periods by start. -/
def pairLE (a b : ℤ × ℤ) : Prop := a.1 ≤ b.1

instance : DecidableRel pairLE := fun a b => inferInstanceAs (Decidable (a.1 ≤ b.1))

instance : IsTotal (ℤ × ℤ) pairLE := ⟨fun a b => Int.le_total a.1 b.1⟩

instance : IsTrans (ℤ × ℤ) pairLE := ⟨fun _ _ _ h₁ h₂ => le_trans h₁ h₂⟩

/-- Embeds convertTimeBlocksToBusyTimeLists: filter to type "busy", group by
day (input order kept), sort each day by start time; the linked list is
flattened to a list of (start, end) pairs. -/
def convertTimeBlocksToBusyTimeLists (timeBlocks : List TimeBlock) : List (List (ℤ × ℤ)) :=
  (List.range 7).map fun (day : ℕ) =>
    List.insertionSort pairLE
      ((timeBlocks.filter fun b => decide (b.type = "busy" ∧ b.day = (day : ℤ))).map
        fun b => (b.startTime, b.endTime))

/-- Embeds the sweep loop of calculateAvailableTimeSlots: walk the sorted
busy periods with a running currentTime, emitting the buffered gap before
each busy period when it is long enough, then the buffered gap to the end
of the 1440-minute day. -/
def sweepSlots (cfg : SchedulingConfig) (day : ℤ) : ℤ → List (ℤ × ℤ) → List AvailableTimeSlot
  | currentTime, [] =>
    if cfg.minSessionLength ≤ 1440 - currentTime - cfg.bufferTime then
      [{ start := currentTime + cfg.bufferTime, stop := 1440 - cfg.bufferTime,
         duration := 1440 - currentTime - cfg.bufferTime, day := day }]
    else []
  | currentTime, (startTime, endTime) :: rest =>
    (if cfg.minSessionLength ≤ startTime - currentTime - cfg.bufferTime * 2 then
      [{ start := currentTime + cfg.bufferTime, stop := startTime - cfg.bufferTime,
         duration := startTime - currentTime - cfg.bufferTime * 2, day := day }]
     else []) ++ sweepSlots cfg day endTime rest

/-- Embeds calculateAvailableTimeSlots: sorts the busy pairs by start (the
method re-sorts its input) and sweeps the day from minute 0. -/
def calculateAvailableTimeSlots (cfg : SchedulingConfig) (busyTimes : List (ℤ × ℤ))
    (day : ℤ) : List AvailableTimeSlot :=
  sweepSlots cfg day 0 (List.insertionSort pairLE busyTimes)

/-- Embeds the expression task.estimatedHours || 1: JavaScript || replaces
both an absent field and the falsy number 0 with the default 1. -/
def effectiveHours (t : TodoItem) : ℚ :=
  match t.estimatedHours with
  | none => 1
  | some x => if x = 0 then 1 else x

/-- Milliseconds in a day, the divisor 1000 * 60 * 60 * 24. -/
def msPerDay : ℤ := 1000 * 60 * 60 * 24

/-- Embeds calculatePriority. -/
def calculatePriority (now : ℤ) (task : TodoItem) : PriorityResult :=
  match task.dueDate with
  | none =>
    { taskId := task.id, priority := 0.1, urgencyMultiplier := 1, basePriority := 0.1,
      daysUntilDue := none, averageHoursPerDay := 0 }
  | some due =>
    let daysUntilDue : ℤ := ⌈((due - now : ℤ) : ℚ) / (msPerDay : ℚ)⌉
    let estimatedHours : ℚ := effectiveHours task
    let averageHoursPerDay : ℚ := estimatedHours / ((max daysUntilDue 1 : ℤ) : ℚ)
    let basePriority : ℚ := averageHoursPerDay
    let tier : ℚ :=
      if daysUntilDue ≤ 0 then 100
      else if estimatedHours < 3 ∧ daysUntilDue ≤ 1 then 10
      else if estimatedHours < 6 ∧ daysUntilDue ≤ 2 then 8
      else if estimatedHours < 12 ∧ daysUntilDue ≤ 3 then 6
      else if estimatedHours < 18 ∧ daysUntilDue ≤ 4 then 4
      else if daysUntilDue ≤ 5 then 2
      else 1
    let urgencyMultiplier : ℚ :=
      if daysUntilDue ≤ 0 then 100
      else if (daysUntilDue : ℚ) * 8 < estimatedHours then 50
      else tier
    { taskId := task.id, priority := basePriority * urgencyMultiplier,
      urgencyMultiplier := urgencyMultiplier, basePriority := basePriority,
      daysUntilDue := some daysUntilDue, averageHoursPerDay := averageHoursPerDay }

/-- One TaskChunk record as built inside the createTaskChunks loop. -/
def mkChunk (task : TodoItem) (totalChunks : ℤ) (i : ℕ) (chunkHours : ℚ) : TaskChunk :=
  { taskId := task.id
    title :=
      if 1 < totalChunks then
        task.title ++ " (Part " ++ toString (i + 1) ++ " of " ++ toString totalChunks ++ ")"
      else task.title
    notes := task.notes
    estimatedHours := chunkHours
    priority := 0
    dueDate := task.dueDate
    activityId := task.activityId
    chunkIndex := i
    totalChunks := totalChunks }

/-- Embeds the for loop of createTaskChunks: k iterations remain, i is the
current index, each chunk takes min(remainingHours, maxChunkHours). -/
def chunkLoop (task : TodoItem) (totalChunks : ℤ) (maxChunkHours : ℚ) :
    ℚ → ℕ → ℕ → List TaskChunk
  | _, _, 0 => []
  | remainingHours, i, k + 1 =>
    mkChunk task totalChunks i (min remainingHours maxChunkHours) ::
      chunkLoop task totalChunks maxChunkHours
        (remainingHours - min remainingHours maxChunkHours) (i + 1) k

/-- Embeds createTaskChunks. -/
def createTaskChunks (cfg : SchedulingConfig) (task : TodoItem) : List TaskChunk :=
  let estimatedHours : ℚ := effectiveHours task
  let maxChunkHours : ℚ := (cfg.maxSessionLength : ℚ) / 60
  let totalChunks : ℤ := ⌈estimatedHours / maxChunkHours⌉
  chunkLoop task totalChunks maxChunkHours estimatedHours 0 totalChunks.toNat

/-- Embeds the slot key template day-start-end used for the usedSlots set;
on numeric fields the string key is injective, so the triple is used. -/
def slotKey (s : AvailableTimeSlot) : ℤ × ℤ × ℤ := (s.day, s.start, s.stop)

/-- Embeds Math.ceil(chunk.estimatedHours * 60), the minutes a chunk needs. -/
def chunkDurationMinutes (c : TaskChunk) : ℤ := ⌈c.estimatedHours * 60⌉

/-- Comparator of findBestTimeSlot: earlier day, then earlier start, then
longer duration. -/
def slotLE (a b : AvailableTimeSlot) : Prop :=
  a.day < b.day ∨ (a.day = b.day ∧
    (a.start < b.start ∨ (a.start = b.start ∧ b.duration ≤ a.duration)))

instance : DecidableRel slotLE := fun a b =>
  inferInstanceAs (Decidable (_ ∨ _ ∧ (_ ∨ _ ∧ _)))

instance : IsTotal AvailableTimeSlot slotLE :=
  ⟨fun a b => by unfold slotLE; omega⟩

instance : IsTrans AvailableTimeSlot slotLE :=
  ⟨fun a b c h₁ h₂ => by unfold slotLE at *; omega⟩

/-- The pool findBestTimeSlot scans: the slots of days 0..6 in order
(the for day loop over availableSlotsByDay). -/
def weekSlotPool (availableSlotsByDay : List (List AvailableTimeSlot)) :
    List AvailableTimeSlot :=
  (List.range 7).flatMap fun day => availableSlotsByDay.getD day []

/-- Embeds findBestTimeSlot: gather every still-unclaimed slot over days
0..6 whose duration fits, sort by the preference order, return the first
(null when none fits). The dueDate parameter is unused in the source too. -/
def findBestTimeSlot (availableSlotsByDay : List (List AvailableTimeSlot))
    (durationMinutes : ℤ) (dueDate : Option ℤ)
    (usedSlots : List (ℤ × ℤ × ℤ)) : Option AvailableTimeSlot :=
  let suitableSlots :=
    (weekSlotPool availableSlotsByDay).filter
      fun slot => decide (slotKey slot ∉ usedSlots ∧ durationMinutes ≤ slot.duration)
  match List.insertionSort slotLE suitableSlots with
  | [] => none
  | s :: _ => some s

/-- Embeds createStudySession. -/
def createStudySession (sessionStamp : ℤ) (chunk : TaskChunk)
    (slot : AvailableTimeSlot) : ScheduledStudySession :=
  { id := "session-" ++ chunk.taskId ++ "-" ++ toString chunk.chunkIndex ++ "-" ++
      toString sessionStamp
    taskId := chunk.taskId
    title := chunk.title
    notes := chunk.notes
    startAbs := slot.day * 1440 + jsSetHM slot.start
    endAbs := slot.day * 1440 + jsSetHM (slot.start + chunkDurationMinutes chunk)
    dayOfWeek := slot.day
    chunkIndex := if 1 < chunk.totalChunks then some (chunk.chunkIndex + 1) else none
    calculatedPriority := chunk.priority
    activityId := chunk.activityId }

/-- Embeds the allocation loop of generateSchedule as explicit state
passing: for each chunk in queue order, look up the best slot against the
used-slot set; a hit yields the (chunk, slot) assignment and claims the
whole slot, a miss drops the chunk silently. -/
def allocLoop (availableSlotsByDay : List (List AvailableTimeSlot)) :
    List TaskChunk → List (ℤ × ℤ × ℤ) → List (TaskChunk × AvailableTimeSlot)
  | [], _ => []
  | chunk :: rest, usedSlots =>
    match findBestTimeSlot availableSlotsByDay (chunkDurationMinutes chunk)
        chunk.dueDate usedSlots with
    | none => allocLoop availableSlotsByDay rest usedSlots
    | some bestSlot =>
      (chunk, bestSlot) :: allocLoop availableSlotsByDay rest (slotKey bestSlot :: usedSlots)

/-- All chunks of the incomplete tasks, each stamped with its parent task's
priority (generateSchedule lines building taskChunks). -/
def chunkList (cfg : SchedulingConfig) (now : ℤ) (tasks : List TodoItem) : List TaskChunk :=
  (tasks.filter fun t => !t.completed).flatMap fun t =>
    (createTaskChunks cfg t).map fun c => { c with priority := (calculatePriority now t).priority }

/-- Comparator (a, b) => b.priority - a.priority: descending priority. -/
def chunkGE (a b : TaskChunk) : Prop := b.priority ≤ a.priority

instance : DecidableRel chunkGE := fun a b => inferInstanceAs (Decidable (b.priority ≤ a.priority))

instance : IsTotal TaskChunk chunkGE := ⟨fun a b => le_total b.priority a.priority⟩

instance : IsTrans TaskChunk chunkGE := ⟨fun _ _ _ h₁ h₂ => le_trans h₂ h₁⟩

/-- The globally sorted allocation queue (taskChunks.sort by descending
priority; JavaScript sort is stable, as is insertion sort). -/
def chunkQueue (cfg : SchedulingConfig) (now : ℤ) (tasks : List TodoItem) : List TaskChunk :=
  List.insertionSort chunkGE (chunkList cfg now tasks)

/-- The day's slot lists indexed 0..6, as generateSchedule builds them. -/
def availableSlotsByDayOf (cfg : SchedulingConfig) (timeBlocks : List TimeBlock) :
    List (List AvailableTimeSlot) :=
  (List.range 7).map fun day =>
    calculateAvailableTimeSlots cfg ((convertTimeBlocksToBusyTimeLists timeBlocks).getD day [])
      (day : ℤ)

/-- Embeds generateSchedule. -/
def generateSchedule (cfg : SchedulingConfig) (now sessionStamp genStamp : ℤ)
    (userId : String) (tasks : List TodoItem) (timeBlocks : List TimeBlock)
    (weekStart : ℤ) : GeneratedSchedule :=
  let incompleteTasks := tasks.filter fun t => !t.completed
  if incompleteTasks.isEmpty then
    { userId := userId, weekStart := weekStart, sessions := [],
      generatedAt := genStamp, version := 1 }
  else
    let sessions := (allocLoop (availableSlotsByDayOf cfg timeBlocks) (chunkQueue cfg now tasks)
      []).map fun p => createStudySession sessionStamp p.1 p.2
    { userId := userId, weekStart := weekStart, sessions := sessions,
      generatedAt := genStamp, version := 1 }

/-- Spec description (section 4.2): the free time a gap is measured from —
minute 0 for the first busy period, otherwise the end of the previous busy
period; at index qs.length it is the end of the last busy period. -/
def prevEndFrom (ct : ℤ) (qs : List (ℤ × ℤ)) : ℕ → ℤ
  | 0 => ct
  | i + 1 => (qs.getD i (0, 0)).2

/-- Spec description (section 4.2): the slot emitted for the gap before the
i-th busy period — present exactly when the gap shrunk by 2 × bufferTime is
at least minSessionLength, starting bufferTime after the previous end and
ending bufferTime before the busy start. -/
def gapSlotAt (cfg : SchedulingConfig) (day ct : ℤ) (qs : List (ℤ × ℤ)) (i : ℕ) :
    Option AvailableTimeSlot :=
  if cfg.minSessionLength ≤ (qs.getD i (0, 0)).1 - prevEndFrom ct qs i - cfg.bufferTime * 2 then
    some { start := prevEndFrom ct qs i + cfg.bufferTime
           stop := (qs.getD i (0, 0)).1 - cfg.bufferTime
           duration := (qs.getD i (0, 0)).1 - prevEndFrom ct qs i - cfg.bufferTime * 2
           day := day }
  else none

/-- Spec description (section 4.2): one slot per busy period, in order. -/
def gapSlots (cfg : SchedulingConfig) (day ct : ℤ) (qs : List (ℤ × ℤ)) :
    List AvailableTimeSlot :=
  (List.range qs.length).filterMap (gapSlotAt cfg day ct qs)

/-- Spec description (section 4.2): the slot after the last busy period —
present exactly when the remaining gap to minute 1440 shrunk by a single
bufferTime is at least minSessionLength. -/
def tailSlots (cfg : SchedulingConfig) (day ct : ℤ) : List AvailableTimeSlot :=
  if cfg.minSessionLength ≤ 1440 - ct - cfg.bufferTime then
    [{ start := ct + cfg.bufferTime, stop := 1440 - cfg.bufferTime,
       duration := 1440 - ct - cfg.bufferTime, day := day }]
  else []

theorem jsSetHM_of_nonneg (m : ℤ) (h : 0 ≤ m) : jsSetHM m = m := by
  rw [jsSetHM, Int.fdiv_eq_ediv _ (by norm_num), Int.tmod_eq_emod h (by norm_num)]
  omega

theorem prevEndFrom_cons (ct s e : ℤ) (rest : List (ℤ × ℤ)) (i : ℕ) :
    prevEndFrom ct ((s, e) :: rest) (i + 1) = prevEndFrom e rest i := by
  cases i <;> rfl

theorem gapSlotAt_cons (cfg : SchedulingConfig) (day ct s e : ℤ) (rest : List (ℤ × ℤ))
    (i : ℕ) : gapSlotAt cfg day ct ((s, e) :: rest) (i + 1) = gapSlotAt cfg day e rest i := by
  cases i <;> rfl

theorem sweepSlots_eq (cfg : SchedulingConfig) (day : ℤ) :
    ∀ (qs : List (ℤ × ℤ)) (ct : ℤ),
      sweepSlots cfg day ct qs =
        gapSlots cfg day ct qs ++ tailSlots cfg day (prevEndFrom ct qs qs.length)
  | [], ct => by
    simp [sweepSlots, gapSlots, prevEndFrom, tailSlots]
  | (s, e) :: rest, ct => by
    have IH := sweepSlots_eq cfg day rest e
    have hcomp : gapSlotAt cfg day ct ((s, e) :: rest) ∘ Nat.succ = gapSlotAt cfg day e rest := by
      funext i
      exact gapSlotAt_cons cfg day ct s e rest i
    rw [sweepSlots, IH]
    unfold gapSlots
    rw [List.length_cons, List.range_succ_eq_map, prevEndFrom_cons]
    by_cases h : cfg.minSessionLength ≤ s - ct - cfg.bufferTime * 2
    · have h0 : gapSlotAt cfg day ct ((s, e) :: rest) 0 =
          some { start := ct + cfg.bufferTime, stop := s - cfg.bufferTime,
                 duration := s - ct - cfg.bufferTime * 2, day := day } := by
        simp [gapSlotAt, prevEndFrom, h]
      rw [List.filterMap_cons_some h0, List.filterMap_map, hcomp, if_pos h]
      simp [gapSlots]
    · have h0 : gapSlotAt cfg day ct ((s, e) :: rest) 0 = none := by
        simp [gapSlotAt, prevEndFrom, h]
      rw [List.filterMap_cons_none h0, List.filterMap_map, hcomp, if_neg h]
      simp [gapSlots]

/-- C4: for every day's sorted busy-period sequence,
calculateAvailableTimeSlots emits, for each busy period in order, a slot for
the gap between the previous busy period's end (or minute 0) and that
period's start exactly when the gap minus 2 × bufferTime is at least
minSessionLength, with start = previous end + bufferTime and
end = period start − bufferTime; after the last busy period it emits the
day-end slot exactly when the remaining gap minus a single bufferTime is at
least minSessionLength. -/
theorem available_slots_characterization (cfg : SchedulingConfig)
    (busyTimes : List (ℤ × ℤ)) (day : ℤ) :
    calculateAvailableTimeSlots cfg busyTimes day =
      gapSlots cfg day 0 (List.insertionSort pairLE busyTimes) ++
        tailSlots cfg day
          (prevEndFrom 0 (List.insertionSort pairLE busyTimes)
            (List.insertionSort pairLE busyTimes).length) :=
  sweepSlots_eq cfg day (List.insertionSort pairLE busyTimes) 0

/-- C9: slots emitted before a busy period store duration = end − start,
while the slot emitted after the last busy period (also the slot of a day
with no busy period) stores duration = end − start + bufferTime; with a
positive buffer its start + duration overshoots its end, and a session
built from a chunk that fills that duration ends after the slot's buffered
end. -/
theorem trailing_slot_duration_includes_buffer (cfg : SchedulingConfig)
    (qs : List (ℤ × ℤ)) (day ct : ℤ) :
    (calculateAvailableTimeSlots cfg qs day =
        gapSlots cfg day 0 (List.insertionSort pairLE qs) ++
          tailSlots cfg day
            (prevEndFrom 0 (List.insertionSort pairLE qs)
              (List.insertionSort pairLE qs).length))
    ∧ (∀ x ∈ gapSlots cfg day ct qs, x.duration = x.stop - x.start)
    ∧ (∀ x ∈ tailSlots cfg day ct, x.duration = x.stop - x.start + cfg.bufferTime)
    ∧ (0 < cfg.bufferTime → ∀ x ∈ tailSlots cfg day ct, x.stop < x.start + x.duration)
    ∧ (∀ x ∈ tailSlots cfg day ct, ∀ (c : TaskChunk) (stamp : ℤ),
        chunkDurationMinutes c = x.duration → 0 < cfg.bufferTime →
          day * 1440 + x.stop < (createStudySession stamp c x).endAbs) := by
  have htail : ∀ x ∈ tailSlots cfg day ct,
      x = { start := ct + cfg.bufferTime, stop := 1440 - cfg.bufferTime,
            duration := 1440 - ct - cfg.bufferTime, day := day } := by
    intro x hx
    unfold tailSlots at hx
    by_cases h : cfg.minSessionLength ≤ 1440 - ct - cfg.bufferTime
    · rw [if_pos h] at hx
      simpa using hx
    · rw [if_neg h] at hx
      simp at hx
  refine ⟨sweepSlots_eq cfg day _ 0, ?_, ?_, ?_, ?_⟩
  · intro x hx
    rcases List.mem_filterMap.mp hx with ⟨i, _, hi⟩
    unfold gapSlotAt at hi
    by_cases h : cfg.minSessionLength ≤
        (qs.getD i (0, 0)).1 - prevEndFrom ct qs i - cfg.bufferTime * 2
    · rw [if_pos h] at hi
      obtain rfl : _ = x := Option.some.inj hi
      simp
      ring
    · rw [if_neg h] at hi
      exact absurd hi (by simp)
  · intro x hx
    rw [htail x hx]
    ring
  · intro hb x hx
    rw [htail x hx]
    simp only
    omega
  · intro x hx c stamp hdur hb
    have hx1 := htail x hx
    unfold createStudySession
    simp only
    rw [hdur, hx1]
    simp only
    have h1440 : ct + cfg.bufferTime + (1440 - ct - cfg.bufferTime) = 1440 := by ring
    rw [h1440, jsSetHM_of_nonneg 1440 (by norm_num)]
    omega

theorem insertionSort_head_min {α : Type} (r : α → α → Prop) [DecidableRel r] [IsTotal α r]
    [IsTrans α r] (l : List α) (x : α) (xs : List α)
    (h : List.insertionSort r l = x :: xs) : x ∈ l ∧ ∀ y ∈ l, r x y := by
  have hs := List.sorted_insertionSort r l
  have hp := List.perm_insertionSort r l
  rw [h] at hs hp
  refine ⟨hp.mem_iff.mp (List.mem_cons_self x xs), fun y hy => ?_⟩
  rcases List.mem_cons.mp (hp.mem_iff.mpr hy) with h₁ | h₁
  · subst h₁
    rcases total_of r y y with h₂ | h₂ <;> exact h₂
  · exact List.rel_of_sorted_cons hs y h₁

theorem findBest_some (A : List (List AvailableTimeSlot)) (d : ℤ) (due : Option ℤ)
    (used : List (ℤ × ℤ × ℤ)) (s : AvailableTimeSlot)
    (h : findBestTimeSlot A d due used = some s) :
    (s ∈ weekSlotPool A ∧ slotKey s ∉ used ∧ d ≤ s.duration)
    ∧ ∀ x ∈ weekSlotPool A, slotKey x ∉ used → d ≤ x.duration → slotLE s x := by
  simp only [findBestTimeSlot] at h
  rcases hsort : List.insertionSort slotLE
      ((weekSlotPool A).filter
        fun slot => decide (slotKey slot ∉ used ∧ d ≤ slot.duration)) with _ | ⟨s₀, tl⟩
  · rw [hsort] at h
    simp at h
  · rw [hsort] at h
    have heq : s₀ = s := by simpa using h
    rw [← heq]
    obtain ⟨hmem, hmin⟩ := insertionSort_head_min slotLE _ s₀ tl hsort
    have hfilter := List.mem_filter.mp hmem
    refine ⟨⟨hfilter.1, by simpa using hfilter.2⟩, fun x hx h1 h2 => ?_⟩
    exact hmin x (List.mem_filter.mpr ⟨hx, by simpa using ⟨h1, h2⟩⟩)

theorem findBest_none (A : List (List AvailableTimeSlot)) (d : ℤ) (due : Option ℤ)
    (used : List (ℤ × ℤ × ℤ)) (h : findBestTimeSlot A d due used = none) :
    ∀ x ∈ weekSlotPool A, slotKey x ∈ used ∨ x.duration < d := by
  simp only [findBestTimeSlot] at h
  rcases hsort : List.insertionSort slotLE
      ((weekSlotPool A).filter
        fun slot => decide (slotKey slot ∉ used ∧ d ≤ slot.duration)) with _ | ⟨s₀, tl⟩
  · have hnil : (weekSlotPool A).filter
        (fun slot => decide (slotKey slot ∉ used ∧ d ≤ slot.duration)) = [] := by
      have hperm := List.perm_insertionSort slotLE
        ((weekSlotPool A).filter
          fun slot => decide (slotKey slot ∉ used ∧ d ≤ slot.duration))
      rw [hsort] at hperm
      exact hperm.symm.eq_nil
    intro x hx
    by_contra hcon
    push_neg at hcon
    have : x ∈ (weekSlotPool A).filter
        (fun slot => decide (slotKey slot ∉ used ∧ d ≤ slot.duration)) :=
      List.mem_filter.mpr ⟨hx, by simpa using ⟨hcon.1, hcon.2⟩⟩
    rw [hnil] at this
    exact absurd this (by simp)
  · rw [hsort] at h
    simp at h

theorem findBest_isSome (A : List (List AvailableTimeSlot)) (d : ℤ) (due : Option ℤ)
    (used : List (ℤ × ℤ × ℤ)) (x : AvailableTimeSlot) (hx : x ∈ weekSlotPool A)
    (h1 : slotKey x ∉ used) (h2 : d ≤ x.duration) :
    ∃ s, findBestTimeSlot A d due used = some s := by
  rcases hb : findBestTimeSlot A d due used with _ | s
  · rcases findBest_none A d due used hb x hx with h | h
    · exact absurd h h1
    · omega
  · exact ⟨s, rfl⟩

theorem allocLoop_cons_none (A : List (List AvailableTimeSlot)) (c : TaskChunk)
    (rest : List TaskChunk) (used : List (ℤ × ℤ × ℤ))
    (h : findBestTimeSlot A (chunkDurationMinutes c) c.dueDate used = none) :
    allocLoop A (c :: rest) used = allocLoop A rest used := by
  simp [allocLoop, h]

theorem allocLoop_cons_some (A : List (List AvailableTimeSlot)) (c : TaskChunk)
    (rest : List TaskChunk) (used : List (ℤ × ℤ × ℤ)) (s : AvailableTimeSlot)
    (h : findBestTimeSlot A (chunkDurationMinutes c) c.dueDate used = some s) :
    allocLoop A (c :: rest) used = (c, s) :: allocLoop A rest (slotKey s :: used) := by
  simp [allocLoop, h]

theorem allocLoop_slot_mem (A : List (List AvailableTimeSlot)) :
    ∀ (chunks : List TaskChunk) (used : List (ℤ × ℤ × ℤ))
      (p : TaskChunk × AvailableTimeSlot), p ∈ allocLoop A chunks used →
        p.2 ∈ weekSlotPool A ∧ slotKey p.2 ∉ used
  | [], _, p, hp => absurd hp (by simp [allocLoop])
  | c :: rest, used, p, hp => by
    rcases hb : findBestTimeSlot A (chunkDurationMinutes c) c.dueDate used with _ | s
    · rw [allocLoop_cons_none A c rest used hb] at hp
      exact allocLoop_slot_mem A rest used p hp
    · rw [allocLoop_cons_some A c rest used s hb] at hp
      rcases List.mem_cons.mp hp with h₁ | h₁
      · subst h₁
        exact ⟨(findBest_some A _ _ _ s hb).1.1, (findBest_some A _ _ _ s hb).1.2.1⟩
      · obtain ⟨hpool, hnot⟩ := allocLoop_slot_mem A rest (slotKey s :: used) p h₁
        exact ⟨hpool, fun hmem => hnot (List.mem_cons_of_mem _ hmem)⟩

theorem allocLoop_pairwise_key (A : List (List AvailableTimeSlot)) :
    ∀ (chunks : List TaskChunk) (used : List (ℤ × ℤ × ℤ)),
      (allocLoop A chunks used).Pairwise (fun p q => slotKey p.2 ≠ slotKey q.2)
  | [], _ => by simp [allocLoop]
  | c :: rest, used => by
    rcases hb : findBestTimeSlot A (chunkDurationMinutes c) c.dueDate used with _ | s
    · rw [allocLoop_cons_none A c rest used hb]
      exact allocLoop_pairwise_key A rest used
    · rw [allocLoop_cons_some A c rest used s hb]
      refine List.Pairwise.cons (fun q hq => ?_) (allocLoop_pairwise_key A rest _)
      have := (allocLoop_slot_mem A rest (slotKey s :: used) q hq).2
      intro heq
      exact this (heq ▸ List.mem_cons_self _ _)

theorem generateSchedule_sessions (cfg : SchedulingConfig) (now sessionStamp genStamp : ℤ)
    (userId : String) (tasks : List TodoItem) (timeBlocks : List TimeBlock) (weekStart : ℤ) :
    (generateSchedule cfg now sessionStamp genStamp userId tasks timeBlocks weekStart).sessions =
      (allocLoop (availableSlotsByDayOf cfg timeBlocks) (chunkQueue cfg now tasks) []).map
        (fun p => createStudySession sessionStamp p.1 p.2) := by
  simp only [generateSchedule]
  by_cases h : (tasks.filter fun t => !t.completed).isEmpty = true
  · rw [if_pos h]
    have hq : chunkQueue cfg now tasks = [] := by
      unfold chunkQueue chunkList
      rw [List.isEmpty_iff.mp h]
      rfl
    rw [hq]
    rfl
  · rw [if_neg h]

/-- C1: required duration is ceil(estimatedHours × 60); the candidate set is
every still-unclaimed slot over the seven day lists whose duration is at
least that; an empty candidate set makes the chunk produce nothing and no
error; otherwise the chosen slot is minimal in the order (day ascending,
start ascending, duration descending) and its key is claimed for the rest
of the run. Chunks are processed in globally descending priority order. -/
theorem allocator_step_spec (cfg : SchedulingConfig) (now sessionStamp genStamp : ℤ)
    (userId : String) (tasks : List TodoItem) (timeBlocks : List TimeBlock) (weekStart : ℤ)
    (A : List (List AvailableTimeSlot)) (used : List (ℤ × ℤ × ℤ)) (c : TaskChunk)
    (rest : List TaskChunk) :
    List.Sorted chunkGE (chunkQueue cfg now tasks)
    ∧ (generateSchedule cfg now sessionStamp genStamp userId tasks timeBlocks
        weekStart).sessions =
      (allocLoop (availableSlotsByDayOf cfg timeBlocks) (chunkQueue cfg now tasks) []).map
        (fun p => createStudySession sessionStamp p.1 p.2)
    ∧ chunkDurationMinutes c = ⌈c.estimatedHours * 60⌉
    ∧ ((∀ x ∈ weekSlotPool A, slotKey x ∈ used ∨ x.duration < chunkDurationMinutes c) →
        findBestTimeSlot A (chunkDurationMinutes c) c.dueDate used = none
        ∧ allocLoop A (c :: rest) used = allocLoop A rest used)
    ∧ ((∃ x ∈ weekSlotPool A, slotKey x ∉ used ∧ chunkDurationMinutes c ≤ x.duration) →
        ∃ s_0, findBestTimeSlot A (chunkDurationMinutes c) c.dueDate used = some s_0)
    ∧ (∀ s_0, findBestTimeSlot A (chunkDurationMinutes c) c.dueDate used = some s_0 →
        (s_0 ∈ weekSlotPool A ∧ slotKey s_0 ∉ used ∧ chunkDurationMinutes c ≤ s_0.duration)
        ∧ (∀ x ∈ weekSlotPool A, slotKey x ∉ used → chunkDurationMinutes c ≤ x.duration →
            slotLE s_0 x)
        ∧ allocLoop A (c :: rest) used = (c, s_0) :: allocLoop A rest (slotKey s_0 :: used)
        ∧ ∀ p ∈ allocLoop A rest (slotKey s_0 :: used), slotKey p.2 ≠ slotKey s_0) := by
  refine ⟨List.sorted_insertionSort chunkGE _,
    generateSchedule_sessions cfg now sessionStamp genStamp userId tasks timeBlocks weekStart,
    rfl, fun hnone => ?_, fun hsome => ?_, fun s_0 hs => ?_⟩
  · rcases hb : findBestTimeSlot A (chunkDurationMinutes c) c.dueDate used with _ | s
    · exact ⟨rfl, allocLoop_cons_none A c rest used hb⟩
    · obtain ⟨⟨hpool, hnot, hdur⟩, _⟩ := findBest_some A _ _ _ s hb
      rcases hnone s hpool with h | h
      · exact absurd h hnot
      · omega
  · obtain ⟨x, hx, h1, h2⟩ := hsome
    exact findBest_isSome A _ _ _ x hx h1 h2
  · obtain ⟨hin, hmin⟩ := findBest_some A _ _ _ s_0 hs
    refine ⟨hin, hmin, allocLoop_cons_some A c rest used s_0 hs, fun p hp => ?_⟩
    have := (allocLoop_slot_mem A rest (slotKey s_0 :: used) p hp).2
    intro heq
    exact this (heq ▸ List.mem_cons_self _ _)

theorem sweepSlots_day (cfg : SchedulingConfig) (day : ℤ) :
    ∀ (qs : List (ℤ × ℤ)) (ct : ℤ), ∀ x ∈ sweepSlots cfg day ct qs, x.day = day
  | [], ct => by
    intro x hx
    rw [sweepSlots] at hx
    by_cases h : cfg.minSessionLength ≤ 1440 - ct - cfg.bufferTime
    · rw [if_pos h] at hx
      obtain rfl : x = _ := by simpa using hx
      rfl
    · rw [if_neg h] at hx
      simp at hx
  | (s, e) :: rest, ct => by
    intro x hx
    rw [sweepSlots] at hx
    rcases List.mem_append.mp hx with h₁ | h₁
    · by_cases h : cfg.minSessionLength ≤ s - ct - cfg.bufferTime * 2
      · rw [if_pos h] at h₁
        obtain rfl : x = _ := by simpa using h₁
        rfl
      · rw [if_neg h] at h₁
        simp at h₁
    · exact sweepSlots_day cfg day rest e x h₁

theorem sweepSlots_start_nonneg (cfg : SchedulingConfig) (day : ℤ)
    (hb : 0 ≤ cfg.bufferTime) :
    ∀ (qs : List (ℤ × ℤ)) (ct : ℤ), 0 ≤ ct → (∀ p ∈ qs, 0 ≤ p.2) →
      ∀ x ∈ sweepSlots cfg day ct qs, 0 ≤ x.start
  | [], ct => by
    intro hct _ x hx
    rw [sweepSlots] at hx
    by_cases h : cfg.minSessionLength ≤ 1440 - ct - cfg.bufferTime
    · rw [if_pos h] at hx
      obtain rfl : x = _ := by simpa using hx
      show 0 ≤ ct + cfg.bufferTime
      omega
    · rw [if_neg h] at hx
      simp at hx
  | (s, e) :: rest, ct => by
    intro hct hq x hx
    rw [sweepSlots] at hx
    rcases List.mem_append.mp hx with h₁ | h₁
    · by_cases h : cfg.minSessionLength ≤ s - ct - cfg.bufferTime * 2
      · rw [if_pos h] at h₁
        obtain rfl : x = _ := by simpa using h₁
        show 0 ≤ ct + cfg.bufferTime
        omega
      · rw [if_neg h] at h₁
        simp at h₁
    · have he : (0 : ℤ) ≤ e := hq (s, e) (List.mem_cons_self _ _)
      exact sweepSlots_start_nonneg cfg day hb rest e he
        (fun p hp => hq p (List.mem_cons_of_mem _ hp)) x h₁

theorem sweepSlots_start_lb (cfg : SchedulingConfig) (day : ℤ) :
    ∀ (qs : List (ℤ × ℤ)) (ct : ℤ), (∀ p ∈ qs, p.1 < p.2) →
      ∀ x ∈ sweepSlots cfg day ct qs,
        ct + cfg.bufferTime ≤ x.start ∨ ∃ p ∈ qs, p.1 + cfg.bufferTime < x.start
  | [], ct => by
    intro _ x hx
    rw [sweepSlots] at hx
    by_cases h : cfg.minSessionLength ≤ 1440 - ct - cfg.bufferTime
    · rw [if_pos h] at hx
      obtain rfl : x = _ := by simpa using hx
      left
      show ct + cfg.bufferTime ≤ ct + cfg.bufferTime
      omega
    · rw [if_neg h] at hx
      simp at hx
  | (s, e) :: rest, ct => by
    intro hwf x hx
    rw [sweepSlots] at hx
    rcases List.mem_append.mp hx with h₁ | h₁
    · by_cases h : cfg.minSessionLength ≤ s - ct - cfg.bufferTime * 2
      · rw [if_pos h] at h₁
        obtain rfl : x = _ := by simpa using h₁
        left
        show ct + cfg.bufferTime ≤ ct + cfg.bufferTime
        omega
      · rw [if_neg h] at h₁
        simp at h₁
    · have hse : s < e := hwf (s, e) (List.mem_cons_self _ _)
      rcases sweepSlots_start_lb cfg day rest e
          (fun p hp => hwf p (List.mem_cons_of_mem _ hp)) x h₁ with h₂ | ⟨p, hp, h₂⟩
      · right
        exact ⟨(s, e), List.mem_cons_self _ _, by omega⟩
      · right
        exact ⟨p, List.mem_cons_of_mem _ hp, h₂⟩

theorem sweepSlots_start_pairwise (cfg : SchedulingConfig) (day : ℤ)
    (hb : 0 ≤ cfg.bufferTime) (hm : 0 < cfg.minSessionLength) :
    ∀ (qs : List (ℤ × ℤ)) (ct : ℤ), (∀ p ∈ qs, p.1 < p.2) → List.Sorted pairLE qs →
      (sweepSlots cfg day ct qs).Pairwise (fun a b => a.start < b.start)
  | [], ct => by
    intro _ _
    rw [sweepSlots]
    by_cases h : cfg.minSessionLength ≤ 1440 - ct - cfg.bufferTime
    · rw [if_pos h]
      simp
    · rw [if_neg h]
      simp
  | (s, e) :: rest, ct => by
    intro hwf hsorted
    have IH := sweepSlots_start_pairwise cfg day hb hm rest e
      (fun p hp => hwf p (List.mem_cons_of_mem _ hp)) hsorted.of_cons
    rw [sweepSlots]
    by_cases h : cfg.minSessionLength ≤ s - ct - cfg.bufferTime * 2
    · rw [if_pos h, List.singleton_append]
      refine List.Pairwise.cons (fun y hy => ?_) IH
      have hse : s < e := hwf (s, e) (List.mem_cons_self _ _)
      rcases sweepSlots_start_lb cfg day rest e
          (fun p hp => hwf p (List.mem_cons_of_mem _ hp)) y hy with h₂ | ⟨p, hp, h₂⟩
      · show ct + cfg.bufferTime < y.start
        omega
      · have hsp : s ≤ p.1 := List.rel_of_sorted_cons hsorted p hp
        show ct + cfg.bufferTime < y.start
        omega
    · rw [if_neg h, List.nil_append]
      exact IH

theorem eq_of_mem_pairwise_start :
    ∀ (l : List AvailableTimeSlot), l.Pairwise (fun a b => a.start < b.start) →
      ∀ x ∈ l, ∀ y ∈ l, x.start = y.start → x = y
  | [], _, x, hx => absurd hx (by simp)
  | a :: l, hp, x, hx => by
    intro y hy hxy
    rcases List.mem_cons.mp hx with rfl | hx₁ <;> rcases List.mem_cons.mp hy with h₂ | h₂
    · rw [h₂]
    · have := (List.pairwise_cons.mp hp).1 y h₂
      omega
    · subst h₂
      have := (List.pairwise_cons.mp hp).1 x hx₁
      omega
    · exact eq_of_mem_pairwise_start l (List.pairwise_cons.mp hp).2 x hx₁ y h₂ hxy

theorem calcSlots_day (cfg : SchedulingConfig) (busyTimes : List (ℤ × ℤ)) (day : ℤ) :
    ∀ x ∈ calculateAvailableTimeSlots cfg busyTimes day, x.day = day :=
  sweepSlots_day cfg day (List.insertionSort pairLE busyTimes) 0

theorem calcSlots_start_nonneg (cfg : SchedulingConfig) (busyTimes : List (ℤ × ℤ))
    (day : ℤ) (hb : 0 ≤ cfg.bufferTime) (hwf : ∀ p ∈ busyTimes, 0 ≤ p.2) :
    ∀ x ∈ calculateAvailableTimeSlots cfg busyTimes day, 0 ≤ x.start :=
  sweepSlots_start_nonneg cfg day hb (List.insertionSort pairLE busyTimes) 0 le_rfl
    (fun p hp => hwf p (by simpa using hp))

theorem calcSlots_start_pairwise (cfg : SchedulingConfig) (busyTimes : List (ℤ × ℤ))
    (day : ℤ) (hb : 0 ≤ cfg.bufferTime) (hm : 0 < cfg.minSessionLength)
    (hwf : ∀ p ∈ busyTimes, p.1 < p.2) :
    (calculateAvailableTimeSlots cfg busyTimes day).Pairwise
      (fun a b => a.start < b.start) :=
  sweepSlots_start_pairwise cfg day hb hm (List.insertionSort pairLE busyTimes) 0
    (fun p hp => hwf p (by simpa using hp)) (List.sorted_insertionSort pairLE busyTimes)

theorem availableSlotsByDayOf_getD (cfg : SchedulingConfig) (timeBlocks : List TimeBlock)
    (d : ℕ) (hd : d < 7) :
    (availableSlotsByDayOf cfg timeBlocks).getD d [] =
      calculateAvailableTimeSlots cfg
        ((convertTimeBlocksToBusyTimeLists timeBlocks).getD d []) (d : ℤ) := by
  unfold availableSlotsByDayOf
  rw [List.getD_eq_getElem?_getD, List.getElem?_map, List.getElem?_range hd]
  rfl

theorem pool_mem_structure (cfg : SchedulingConfig) (timeBlocks : List TimeBlock)
    (x : AvailableTimeSlot) (hx : x ∈ weekSlotPool (availableSlotsByDayOf cfg timeBlocks)) :
    ∃ d : ℕ, d < 7 ∧
      x ∈ calculateAvailableTimeSlots cfg
        ((convertTimeBlocksToBusyTimeLists timeBlocks).getD d []) (d : ℤ) := by
  unfold weekSlotPool at hx
  rcases List.mem_flatMap.mp hx with ⟨d, hd, hxd⟩
  have hd7 : d < 7 := by simpa using hd
  rw [availableSlotsByDayOf_getD cfg timeBlocks d hd7] at hxd
  exact ⟨d, hd7, hxd⟩

theorem busy_pairs_wf (timeBlocks : List TimeBlock)
    (hwf : ∀ b ∈ timeBlocks, b.type = "busy" → 0 ≤ b.startTime ∧ b.startTime < b.endTime)
    (d : ℕ) :
    ∀ p ∈ (convertTimeBlocksToBusyTimeLists timeBlocks).getD d [], 0 ≤ p.1 ∧ p.1 < p.2 := by
  intro p hp
  by_cases hd : d < 7
  · unfold convertTimeBlocksToBusyTimeLists at hp
    rw [List.getD_eq_getElem?_getD, List.getElem?_map, List.getElem?_range hd] at hp
    have hp₂ : p ∈ (timeBlocks.filter
        fun b => decide (b.type = "busy" ∧ b.day = (d : ℤ))).map
          fun b => (b.startTime, b.endTime) := by
      simpa using hp
    rcases List.mem_map.mp hp₂ with ⟨b, hb, rfl⟩
    have hb₂ := List.mem_filter.mp hb
    have hbusy : b.type = "busy" ∧ b.day = (d : ℤ) := by simpa using hb₂.2
    have := hwf b hb₂.1 hbusy.1
    exact ⟨this.1, this.2⟩
  · unfold convertTimeBlocksToBusyTimeLists at hp
    rw [List.getD_eq_getElem?_getD, List.getElem?_eq_none (by simpa using hd)] at hp
    simp at hp

/-- C2 amended: for inputs whose busy-typed periods are well formed
(0 ≤ start < end) and a configuration with nonnegative buffer and positive
minimum session length (the defaults qualify), no two sessions of a
generated schedule share the same (dayOfWeek, startTime, endTime) triple. -/
theorem session_triple_exclusive (cfg : SchedulingConfig) (now sessionStamp genStamp : ℤ)
    (userId : String) (tasks : List TodoItem) (timeBlocks : List TimeBlock)
    (weekStart : ℤ) (hb : 0 ≤ cfg.bufferTime) (hm : 0 < cfg.minSessionLength)
    (hwf : ∀ b ∈ timeBlocks, b.type = "busy" → 0 ≤ b.startTime ∧ b.startTime < b.endTime) :
    (generateSchedule cfg now sessionStamp genStamp userId tasks
      timeBlocks weekStart).sessions.Pairwise
        (fun s_1 s_2 => (s_1.dayOfWeek, s_1.startAbs, s_1.endAbs) ≠
          (s_2.dayOfWeek, s_2.startAbs, s_2.endAbs)) := by
  rw [generateSchedule_sessions, List.pairwise_map]
  refine (allocLoop_pairwise_key (availableSlotsByDayOf cfg timeBlocks)
    (chunkQueue cfg now tasks) []).imp_of_mem ?_
  intro p q hp hq hne heq
  have h₁ : p.2.day = q.2.day := congrArg Prod.fst heq
  have h₂ : p.2.day * 1440 + jsSetHM p.2.start = q.2.day * 1440 + jsSetHM q.2.start := by
    have := congrArg (fun z => z.2.1) heq
    simpa [createStudySession] using this
  obtain ⟨d₁, hd₁, hpmem⟩ := pool_mem_structure cfg timeBlocks p.2
    (allocLoop_slot_mem _ _ _ p hp).1
  obtain ⟨d₂, hd₂, hqmem⟩ := pool_mem_structure cfg timeBlocks q.2
    (allocLoop_slot_mem _ _ _ q hq).1
  have hpday : p.2.day = (d₁ : ℤ) := calcSlots_day cfg _ _ p.2 hpmem
  have hqday : q.2.day = (d₂ : ℤ) := calcSlots_day cfg _ _ q.2 hqmem
  have hdeq : d₁ = d₂ := by
    have : (d₁ : ℤ) = (d₂ : ℤ) := by rw [← hpday, ← hqday, h₁]
    exact_mod_cast this
  subst hdeq
  have hwfd := busy_pairs_wf timeBlocks hwf d₁
  have hpnn : 0 ≤ p.2.start :=
    calcSlots_start_nonneg cfg _ _ hb (fun r hr => le_of_lt (lt_of_le_of_lt
      (hwfd r hr).1 (hwfd r hr).2)) p.2 hpmem
  have hqnn : 0 ≤ q.2.start :=
    calcSlots_start_nonneg cfg _ _ hb (fun r hr => le_of_lt (lt_of_le_of_lt
      (hwfd r hr).1 (hwfd r hr).2)) q.2 hqmem
  have hstart : p.2.start = q.2.start := by
    have := h₂
    rw [hpday, hqday] at this
    rw [jsSetHM_of_nonneg _ hpnn, jsSetHM_of_nonneg _ hqnn] at this
    omega
  have hslots : p.2 = q.2 :=
    eq_of_mem_pairwise_start _
      (calcSlots_start_pairwise cfg _ _ hb hm (fun r hr => (hwfd r hr).2))
      p.2 hpmem q.2 hqmem hstart
  exact hne (by rw [hslots])

/-- One-hour task used in concrete runs. -/
def cexTaskA : TodoItem :=
  { id := "a", title := "A", notes := none, dueDate := none, estimatedHours := some 1,
    completed := false, activityId := none }

/-- Second one-hour task used in concrete runs. -/
def cexTaskB : TodoItem :=
  { id := "b", title := "B", notes := none, dueDate := none, estimatedHours := some 1,
    completed := false, activityId := none }

/-- A malformed busy-period input: the second period ends before it starts.
The engine accepts it unvalidated and produces two day-0 slots that share
the start minute 305. -/
def cexBlocks : List TimeBlock :=
  [ { day := 0, startTime := 0, endTime := 300, type := "busy" },
    { day := 0, startTime := 400, endTime := 300, type := "busy" } ]

/-- Well-formed busy-period input for the positive instance. -/
def witBlocks : List TimeBlock :=
  [ { day := 0, startTime := 60, endTime := 120, type := "busy" } ]

/-- C2 counterexample: on a busy period whose end precedes its start two
sessions of one generated schedule share the same
(dayOfWeek, startTime, endTime) triple, refuting slot exclusivity for
arbitrary busy-period inputs. -/
theorem session_triple_exclusive_cex :
    ¬ (generateSchedule DEFAULT_SCHEDULING_CONFIG 0 0 0 "u" [cexTaskA, cexTaskB]
        cexBlocks 0).sessions.Pairwise
      (fun s_1 s_2 => (s_1.dayOfWeek, s_1.startAbs, s_1.endAbs) ≠
        (s_2.dayOfWeek, s_2.startAbs, s_2.endAbs)) := by
  with_unfolding_all decide

/-- C2 witness: the amended exclusivity theorem applied to a concrete
well-formed instance. -/
theorem session_triple_exclusive_witness :
    (0 ≤ DEFAULT_SCHEDULING_CONFIG.bufferTime)
    ∧ (0 < DEFAULT_SCHEDULING_CONFIG.minSessionLength)
    ∧ (∀ b ∈ witBlocks, b.type = "busy" → 0 ≤ b.startTime ∧ b.startTime < b.endTime)
    ∧ (generateSchedule DEFAULT_SCHEDULING_CONFIG 0 0 0 "u" [cexTaskA, cexTaskB]
        witBlocks 0).sessions.Pairwise
      (fun s_1 s_2 => (s_1.dayOfWeek, s_1.startAbs, s_1.endAbs) ≠
        (s_2.dayOfWeek, s_2.startAbs, s_2.endAbs)) :=
  ⟨by decide, by decide, by decide,
    session_triple_exclusive DEFAULT_SCHEDULING_CONFIG 0 0 0 "u" [cexTaskA, cexTaskB]
      witBlocks 0 (by decide) (by decide) (by decide)⟩

/-- C3: for a dated task, the urgency multiplier is the first matching tier
of the table, then replaced by 100 when overdue, else by 50 when
effortHours exceeds daysUntilDue × 8; the returned priority is
basePriority × multiplier with basePriority = effortHours /
max(daysUntilDue, 1); estimatedHours 20 with daysUntilDue 1 yields 50. -/
theorem calculatePriority_dated_spec (now : ℤ) (task : TodoItem) (due : ℤ)
    (hdue : task.dueDate = some due) :
    (calculatePriority now task).daysUntilDue =
      some ⌈((due - now : ℤ) : ℚ) / (msPerDay : ℚ)⌉
    ∧ (calculatePriority now task).basePriority =
        effectiveHours task /
          ((max ⌈((due - now : ℤ) : ℚ) / (msPerDay : ℚ)⌉ 1 : ℤ) : ℚ)
    ∧ (calculatePriority now task).urgencyMultiplier =
        (let d : ℤ := ⌈((due - now : ℤ) : ℚ) / (msPerDay : ℚ)⌉
         let E : ℚ := effectiveHours task
         let tier : ℚ :=
           if d ≤ 0 then 100
           else if E < 3 ∧ d ≤ 1 then 10
           else if E < 6 ∧ d ≤ 2 then 8
           else if E < 12 ∧ d ≤ 3 then 6
           else if E < 18 ∧ d ≤ 4 then 4
           else if d ≤ 5 then 2
           else 1
         if d ≤ 0 then 100 else if (d : ℚ) * 8 < E then 50 else tier)
    ∧ (calculatePriority now task).priority =
        (calculatePriority now task).basePriority *
          (calculatePriority now task).urgencyMultiplier
    ∧ (effectiveHours task = 20 → ⌈((due - now : ℤ) : ℚ) / (msPerDay : ℚ)⌉ = 1 →
        (calculatePriority now task).urgencyMultiplier = 50) := by
  refine ⟨by simp [calculatePriority, hdue], by simp [calculatePriority, hdue],
    by simp [calculatePriority, hdue], by simp [calculatePriority, hdue], ?_⟩
  intro hE hd
  simp only [calculatePriority, hdue, hE, hd]
  norm_num

/-- Concrete task for the C3 witness: 20 estimated hours due in one day. -/
def scenarioDTask : TodoItem :=
  { id := "d", title := "D", notes := none, dueDate := some 86400000,
    estimatedHours := some 20, completed := false, activityId := none }

/-- C3 witness: scenario D at a concrete clock value. -/
theorem calculatePriority_dated_spec_witness :
    scenarioDTask.dueDate = some 86400000
    ∧ (calculatePriority 0 scenarioDTask).urgencyMultiplier = 50 := by
  refine ⟨rfl, ?_⟩
  exact (calculatePriority_dated_spec 0 scenarioDTask 86400000 rfl).2.2.2.2
    (by with_unfolding_all decide) (by with_unfolding_all decide)

/-- C7: a task with the undated marker scores the fixed lowest-priority
result — priority 0.1, multiplier 1, basePriority 0.1, daysUntilDue the
infinity marker, averageHoursPerDay 0 — regardless of estimated effort. -/
theorem calculatePriority_undated (now : ℤ) (task : TodoItem)
    (h : task.dueDate = none) :
    calculatePriority now task =
      { taskId := task.id, priority := 0.1, urgencyMultiplier := 1, basePriority := 0.1,
        daysUntilDue := none, averageHoursPerDay := 0 } := by
  simp [calculatePriority, h]

/-- Concrete undated task with a large estimated effort. -/
def undatedTask : TodoItem :=
  { id := "t", title := "T", notes := none, dueDate := none,
    estimatedHours := some 500, completed := false, activityId := none }

/-- C7 witness: the undated fixed result at a concrete task and clock. -/
theorem calculatePriority_undated_witness :
    undatedTask.dueDate = none
    ∧ calculatePriority 7 undatedTask =
      { taskId := "t", priority := 0.1, urgencyMultiplier := 1, basePriority := 0.1,
        daysUntilDue := none, averageHoursPerDay := 0 } :=
  ⟨rfl, calculatePriority_undated 7 undatedTask rfl⟩

theorem chunkLoop_congr (t₁ t₂ : TodoItem) (hid : t₁.id = t₂.id)
    (hti : t₁.title = t₂.title) (hn : t₁.notes = t₂.notes) (hd : t₁.dueDate = t₂.dueDate)
    (ha : t₁.activityId = t₂.activityId) :
    ∀ (k : ℕ) (n : ℤ) (m r : ℚ) (i : ℕ), chunkLoop t₁ n m r i k = chunkLoop t₂ n m r i k
  | 0, _, _, _, _ => rfl
  | k + 1, n, m, r, i => by
    rw [chunkLoop, chunkLoop, chunkLoop_congr t₁ t₂ hid hti hn hd ha k]
    simp [mkChunk, hid, hti, hn, hd, ha]

/-- C10: estimatedHours = 0 is treated exactly like an absent field by both
calculatePriority and createTaskChunks — the JavaScript || default turns it
into effort 1 — and under the default configuration such a task still
produces one one-hour chunk. -/
theorem zero_estimated_hours_defaults (cfg : SchedulingConfig) (now : ℤ)
    (task : TodoItem) :
    effectiveHours { task with estimatedHours := some 0 } = 1
    ∧ effectiveHours { task with estimatedHours := none } = 1
    ∧ calculatePriority now { task with estimatedHours := some 0 } =
        calculatePriority now { task with estimatedHours := none }
    ∧ createTaskChunks cfg { task with estimatedHours := some 0 } =
        createTaskChunks cfg { task with estimatedHours := none }
    ∧ (createTaskChunks DEFAULT_SCHEDULING_CONFIG
        { task with estimatedHours := some 0 }).length = 1
    ∧ ∀ c_1 ∈ createTaskChunks DEFAULT_SCHEDULING_CONFIG
        { task with estimatedHours := some 0 }, c_1.estimatedHours = 1 := by
  have hz : effectiveHours { task with estimatedHours := some 0 } = 1 := by
    simp [effectiveHours]
  have hn : effectiveHours { task with estimatedHours := none } = 1 := by
    simp [effectiveHours]
  have hone : createTaskChunks DEFAULT_SCHEDULING_CONFIG
      { task with estimatedHours := some 0 } =
        [mkChunk { task with estimatedHours := some 0 } 1 0 1] := by
    simp only [createTaskChunks, hz]
    have h60 : ((DEFAULT_SCHEDULING_CONFIG.maxSessionLength : ℚ) / 60) = 1 := by
      norm_num [DEFAULT_SCHEDULING_CONFIG]
    rw [h60]
    norm_num
    simp [chunkLoop]
  refine ⟨hz, hn, ?_, ?_, ?_, ?_⟩
  · cases htask : task.dueDate with
    | none => simp [calculatePriority, htask]
    | some due => simp [calculatePriority, htask, effectiveHours]
  · simp only [createTaskChunks, hz, hn]
    exact chunkLoop_congr { task with estimatedHours := some 0 }
      { task with estimatedHours := none } rfl rfl rfl rfl rfl _ _ _ _ _
  · rw [hone]
    rfl
  · rw [hone]
    intro c_1 hc
    obtain rfl : c_1 = mkChunk { task with estimatedHours := some 0 } 1 0 1 := by
      simpa using hc
    rfl

theorem chunkLoop_length (t : TodoItem) (n : ℤ) (m : ℚ) :
    ∀ (k : ℕ) (r : ℚ) (i : ℕ), (chunkLoop t n m r i k).length = k
  | 0, _, _ => rfl
  | k + 1, r, i => by
    rw [chunkLoop]
    simp [chunkLoop_length t n m k]

theorem chunkLoop_sum (t : TodoItem) (n : ℤ) (m : ℚ) (hm : 0 ≤ m) :
    ∀ (k : ℕ) (r : ℚ) (i : ℕ), 0 ≤ r → r ≤ (k : ℚ) * m →
      ((chunkLoop t n m r i k).map (fun c => c.estimatedHours)).sum = r
  | 0, r, i => by
    intro h1 h2
    have hr : r = 0 := le_antisymm (by simpa using h2) h1
    simp [chunkLoop, hr]
  | k + 1, r, i => by
    intro h1 h2
    rw [chunkLoop]
    simp only [List.map_cons, List.sum_cons, mkChunk]
    have hrec : ((chunkLoop t n m (r - min r m) (i + 1) k).map
        (fun c => c.estimatedHours)).sum = r - min r m := by
      refine chunkLoop_sum t n m hm k (r - min r m) (i + 1)
        (by simp [min_le_left]) ?_
      rcases le_total r m with h | h
      · rw [min_eq_left h]
        have : (0 : ℚ) ≤ (k : ℚ) * m := mul_nonneg (by positivity) hm
        linarith
      · rw [min_eq_right h]
        push_cast at h2
        linarith
    rw [hrec]
    ring
  termination_by k => k

theorem chunkLoop_getElem (t : TodoItem) (n : ℤ) (m : ℚ) (hm : 0 < m) :
    ∀ (k : ℕ) (r : ℚ) (i j : ℕ), j < k → ((k : ℚ) - 1) * m < r →
      (chunkLoop t n m r i k)[j]? = some (mkChunk t n (i + j) (min (r - j * m) m))
  | 0, r, i, j => by omega
  | k + 1, r, i, j => by
    intro hj hr
    rw [chunkLoop]
    cases j with
    | zero => simp
    | succ j' =>
      simp only [List.getElem?_cons_succ]
      have hk1 : 1 ≤ k := by omega
      have hrm : m ≤ r := by
        have hkm : m ≤ (k : ℚ) * m := le_mul_of_one_le_left hm.le (by exact_mod_cast hk1)
        push_cast at hr
        linarith
      rw [min_eq_right hrm]
      have IH := chunkLoop_getElem t n m hm k (r - m) (i + 1) j' (by omega)
        (by push_cast at hr ⊢; linarith)
      rw [IH]
      have hidx : i + 1 + j' = i + (j' + 1) := by omega
      have hhrs : r - m - (j' : ℚ) * m = r - ((j' : ℕ) + 1 : ℕ) * m := by
        push_cast
        ring
      rw [hidx, hhrs]
  termination_by k => k

theorem chunkLoop_mem (t : TodoItem) (n : ℤ) (m : ℚ) :
    ∀ (k : ℕ) (r : ℚ) (i : ℕ), ∀ c_1 ∈ chunkLoop t n m r i k,
      ∃ (j : ℕ) (h : ℚ), c_1 = mkChunk t n j h
  | 0, _, _ => by simp [chunkLoop]
  | k + 1, r, i => by
    intro c_1 hc
    rw [chunkLoop] at hc
    rcases List.mem_cons.mp hc with h | h
    · exact ⟨i, min r m, h⟩
    · exact chunkLoop_mem t n m k (r - min r m) (i + 1) c_1 h

theorem createTaskChunks_mem (cfg : SchedulingConfig) (t : TodoItem) :
    ∀ c_1 ∈ createTaskChunks cfg t,
      ∃ (j : ℕ) (h : ℚ),
        c_1 = mkChunk t ⌈effectiveHours t / ((cfg.maxSessionLength : ℚ) / 60)⌉ j h := by
  intro c_1 hc
  exact chunkLoop_mem t _ _ _ _ _ c_1 hc

/-- C5: createTaskChunks yields exactly ceil(estimatedHours / maxChunkHours)
chunks; chunk j holds min(remaining, maxChunkHours) hours with remaining
following the greedy closed form; the chunk hours sum to the task's effort;
titles carry the Part annotation exactly when more than one chunk exists. -/
theorem createTaskChunks_spec (cfg : SchedulingConfig) (task : TodoItem)
    (hmax : 0 < cfg.maxSessionLength) (hE : 0 < effectiveHours task) :
    (createTaskChunks cfg task).length =
      (⌈effectiveHours task / ((cfg.maxSessionLength : ℚ) / 60)⌉).toNat
    ∧ 1 ≤ ⌈effectiveHours task / ((cfg.maxSessionLength : ℚ) / 60)⌉
    ∧ ((createTaskChunks cfg task).map (fun c => c.estimatedHours)).sum =
        effectiveHours task
    ∧ (∀ j : ℕ, j < (⌈effectiveHours task / ((cfg.maxSessionLength : ℚ) / 60)⌉).toNat →
        (createTaskChunks cfg task)[j]? =
          some (mkChunk task ⌈effectiveHours task / ((cfg.maxSessionLength : ℚ) / 60)⌉ j
            (min (effectiveHours task - j * ((cfg.maxSessionLength : ℚ) / 60))
              ((cfg.maxSessionLength : ℚ) / 60))))
    ∧ (∀ c_1 ∈ createTaskChunks cfg task,
        c_1.title =
          if 1 < ⌈effectiveHours task / ((cfg.maxSessionLength : ℚ) / 60)⌉ then
            task.title ++ " (Part " ++ toString (c_1.chunkIndex + 1) ++ " of " ++
              toString ⌈effectiveHours task / ((cfg.maxSessionLength : ℚ) / 60)⌉ ++ ")"
          else task.title) := by
  have hm : (0 : ℚ) < (cfg.maxSessionLength : ℚ) / 60 := by
    have : (0 : ℚ) < (cfg.maxSessionLength : ℚ) := by exact_mod_cast hmax
    positivity
  set E : ℚ := effectiveHours task with hEdef
  set m : ℚ := (cfg.maxSessionLength : ℚ) / 60 with hmdef
  set n : ℤ := ⌈E / m⌉ with hndef
  have hn1 : 1 ≤ n := by
    have : (0 : ℤ) < n := Int.lt_ceil.mpr (by push_cast; exact div_pos hE hm)
    omega
  have hcast : ((n.toNat : ℕ) : ℚ) = (n : ℚ) := by
    have := Int.toNat_of_nonneg (show (0 : ℤ) ≤ n by omega)
    exact_mod_cast this
  refine ⟨?_, hn1, ?_, ?_, ?_⟩
  · exact chunkLoop_length task n m n.toNat E 0
  · refine chunkLoop_sum task n m hm.le n.toNat E 0 hE.le ?_
    have h1 : E / m ≤ (n : ℚ) := Int.le_ceil (E / m)
    rw [hcast]
    calc E = E / m * m := by field_simp
    _ ≤ (n : ℚ) * m := by
        exact mul_le_mul_of_nonneg_right h1 hm.le
  · intro j hj
    have := chunkLoop_getElem task n m hm n.toNat E 0 j hj ?_
    · simpa using this
    · have h1 : ((n : ℚ) - 1) < E / m := by
        have := Int.ceil_lt_add_one (E / m)
        rw [← hndef] at this
        linarith
      rw [hcast]
      calc ((n : ℚ) - 1) * m < E / m * m := by
            exact mul_lt_mul_of_pos_right h1 hm
      _ = E := by field_simp
  · intro c_1 hc
    obtain ⟨j, h, rfl⟩ := createTaskChunks_mem cfg task c_1 hc
    rfl

/-- Concrete two-hour task for the C5 witness. -/
def chunkWitnessTask : TodoItem :=
  { id := "w", title := "W", notes := none, dueDate := none, estimatedHours := some 2,
    completed := false, activityId := none }

/-- C5 witness: a two-hour task under the default configuration gives two
chunks whose hours sum to the effort. -/
theorem createTaskChunks_spec_witness :
    0 < DEFAULT_SCHEDULING_CONFIG.maxSessionLength
    ∧ 0 < effectiveHours chunkWitnessTask
    ∧ (createTaskChunks DEFAULT_SCHEDULING_CONFIG chunkWitnessTask).length =
      (⌈effectiveHours chunkWitnessTask /
        ((DEFAULT_SCHEDULING_CONFIG.maxSessionLength : ℚ) / 60)⌉).toNat
    ∧ ((createTaskChunks DEFAULT_SCHEDULING_CONFIG chunkWitnessTask).map
        (fun c => c.estimatedHours)).sum = effectiveHours chunkWitnessTask := by
  refine ⟨by decide, by with_unfolding_all decide, ?_, ?_⟩
  · exact (createTaskChunks_spec DEFAULT_SCHEDULING_CONFIG chunkWitnessTask (by decide)
      (by with_unfolding_all decide)).1
  · exact (createTaskChunks_spec DEFAULT_SCHEDULING_CONFIG chunkWitnessTask (by decide)
      (by with_unfolding_all decide)).2.2.1

theorem chunkList_mem (cfg : SchedulingConfig) (now : ℤ) (tasks : List TodoItem)
    (c : TaskChunk) (hc : c ∈ chunkList cfg now tasks) :
    ∃ t ∈ tasks, t.completed = false ∧ c.taskId = t.id ∧
      c.priority = (calculatePriority now t).priority := by
  unfold chunkList at hc
  rcases List.mem_flatMap.mp hc with ⟨t, ht, hct⟩
  rcases List.mem_map.mp hct with ⟨c₀, hc₀, rfl⟩
  have htf := List.mem_filter.mp ht
  obtain ⟨j, h, rfl⟩ := createTaskChunks_mem cfg t c₀ hc₀
  exact ⟨t, htf.1, by simpa using htf.2, rfl, rfl⟩

theorem overdue_priority (now : ℤ) (t : TodoItem) (d_0 : ℤ) (hdue : t.dueDate = some d_0)
    (hpast : d_0 ≤ now) :
    (calculatePriority now t).urgencyMultiplier = 100 ∧
    (calculatePriority now t).priority = effectiveHours t * 100 := by
  have hms : (0 : ℚ) ≤ (msPerDay : ℚ) := by norm_num [msPerDay]
  have hd : ⌈((d_0 - now : ℤ) : ℚ) / (msPerDay : ℚ)⌉ ≤ 0 := by
    rw [Int.ceil_le]
    push_cast
    refine div_nonpos_iff.mpr (Or.inr ⟨by linarith [(show ((d_0 : ℚ)) ≤ (now : ℚ) by
      exact_mod_cast hpast)], hms⟩)
  have hmax : max ⌈((d_0 - now : ℤ) : ℚ) / (msPerDay : ℚ)⌉ 1 = 1 :=
    max_eq_right (by omega)
  simp only [calculatePriority, hdue]
  rw [if_pos hd, hmax]
  refine ⟨rfl, ?_⟩
  push_cast
  rw [div_one]

theorem future_mult (now : ℤ) (t : TodoItem) (d_f : ℤ) (hdue : t.dueDate = some d_f)
    (hfut : now < d_f) :
    1 ≤ ⌈((d_f - now : ℤ) : ℚ) / (msPerDay : ℚ)⌉
    ∧ 0 < (calculatePriority now t).urgencyMultiplier
    ∧ (calculatePriority now t).urgencyMultiplier ≤ 50
    ∧ (calculatePriority now t).priority =
        effectiveHours t / ((⌈((d_f - now : ℤ) : ℚ) / (msPerDay : ℚ)⌉ : ℤ) : ℚ) *
          (calculatePriority now t).urgencyMultiplier := by
  have hms : (0 : ℚ) < (msPerDay : ℚ) := by norm_num [msPerDay]
  have hd1 : 1 ≤ ⌈((d_f - now : ℤ) : ℚ) / (msPerDay : ℚ)⌉ := by
    have : (0 : ℤ) < ⌈((d_f - now : ℤ) : ℚ) / (msPerDay : ℚ)⌉ := by
      rw [Int.lt_ceil]
      push_cast
      apply div_pos _ hms
      have : (now : ℚ) < (d_f : ℚ) := by exact_mod_cast hfut
      linarith
    omega
  have hd0 : ¬ (⌈((d_f - now : ℤ) : ℚ) / (msPerDay : ℚ)⌉ ≤ 0) := by omega
  have hmax : max ⌈((d_f - now : ℤ) : ℚ) / (msPerDay : ℚ)⌉ 1 =
      ⌈((d_f - now : ℤ) : ℚ) / (msPerDay : ℚ)⌉ := max_eq_left (by omega)
  simp only [calculatePriority, hdue]
  rw [if_neg hd0, hmax]
  refine ⟨hd1, ?_, ?_, rfl⟩
  · split_ifs <;> norm_num
  · split_ifs <;> norm_num

/-- C6: an overdue incomplete task with positive effort has urgency
multiplier 100 and, in the allocation queue, every one of its chunks comes
before every chunk of an incomplete task due in the future with equal or
smaller effort (task ids unique as in the task store). -/
theorem overdue_chunks_first (cfg : SchedulingConfig) (now : ℤ) (tasks : List TodoItem)
    (t_o t_f : TodoItem) (d_o d_f : ℤ)
    (hids : (tasks.map fun t => t.id).Nodup)
    (ho : t_o ∈ tasks) (hf : t_f ∈ tasks)
    (hod : t_o.dueDate = some d_o) (hdo : d_o ≤ now)
    (hoE : 0 < effectiveHours t_o)
    (hfd : t_f.dueDate = some d_f) (hdf : now < d_f)
    (hE : effectiveHours t_f ≤ effectiveHours t_o) :
    (calculatePriority now t_o).urgencyMultiplier = 100
    ∧ ∀ (i j : ℕ) (hi : i < (chunkQueue cfg now tasks).length)
        (hj : j < (chunkQueue cfg now tasks).length),
        ((chunkQueue cfg now tasks).get ⟨i, hi⟩).taskId = t_f.id →
        ((chunkQueue cfg now tasks).get ⟨j, hj⟩).taskId = t_o.id →
        j < i := by
  obtain ⟨hm100, hpo⟩ := overdue_priority now t_o d_o hod hdo
  obtain ⟨hd1, hmpos, hm50, hpf⟩ := future_mult now t_f d_f hfd hdf
  have hplt : (calculatePriority now t_f).priority <
      (calculatePriority now t_o).priority := by
    rw [hpo, hpf]
    have hdq : (1 : ℚ) ≤ ((⌈((d_f - now : ℤ) : ℚ) / (msPerDay : ℚ)⌉ : ℤ) : ℚ) := by
      exact_mod_cast hd1
    rcases le_or_lt (effectiveHours t_f) 0 with hEf | hEf
    · have h1 : effectiveHours t_f /
          ((⌈((d_f - now : ℤ) : ℚ) / (msPerDay : ℚ)⌉ : ℤ) : ℚ) ≤ 0 :=
        div_nonpos_iff.mpr (Or.inr ⟨hEf, by linarith⟩)
      nlinarith
    · have h1 : effectiveHours t_f /
          ((⌈((d_f - now : ℤ) : ℚ) / (msPerDay : ℚ)⌉ : ℤ) : ℚ) ≤ effectiveHours t_f :=
        div_le_self hEf.le hdq
      have h2 : (0 : ℚ) ≤ effectiveHours t_f /
          ((⌈((d_f - now : ℤ) : ℚ) / (msPerDay : ℚ)⌉ : ℤ) : ℚ) := by positivity
      nlinarith
  have hne : t_o ≠ t_f := by
    intro h
    rw [h, hfd] at hod
    have : d_f = d_o := by simpa using hod
    omega
  have hneid : t_o.id ≠ t_f.id := by
    intro h
    exact hne (List.inj_on_of_nodup_map hids ho hf h)
  have hgetp : ∀ (k : ℕ) (hk : k < (chunkQueue cfg now tasks).length) (t : TodoItem),
      t ∈ tasks → ((chunkQueue cfg now tasks).get ⟨k, hk⟩).taskId = t.id →
        ((chunkQueue cfg now tasks).get ⟨k, hk⟩).priority =
          (calculatePriority now t).priority := by
    intro k hk t ht hid
    have hmem : (chunkQueue cfg now tasks).get ⟨k, hk⟩ ∈ chunkList cfg now tasks := by
      have h0 : (chunkQueue cfg now tasks).get ⟨k, hk⟩ ∈ chunkQueue cfg now tasks :=
        List.get_mem _ k hk
      unfold chunkQueue at h0
      exact (List.mem_insertionSort chunkGE).mp h0
    obtain ⟨t', ht', _, hid', hp⟩ := chunkList_mem cfg now tasks _ hmem
    have : t' = t := List.inj_on_of_nodup_map hids ht' ht (by rw [← hid', hid])
    rw [hp, this]
  refine ⟨hm100, fun i j hi hj hfi hoj => ?_⟩
  have hij : i ≠ j := by
    intro h
    subst h
    exact hneid (by rw [← hoj, ← hfi])
  rcases Nat.lt_or_ge j i with h | h
  · exact h
  · exfalso
    have hij2 : i < j := by omega
    have hs := List.sorted_insertionSort chunkGE (chunkList cfg now tasks)
    have hrel : chunkGE ((chunkQueue cfg now tasks).get ⟨i, hi⟩)
        ((chunkQueue cfg now tasks).get ⟨j, hj⟩) := by
      exact hs.rel_get_of_lt (by exact_mod_cast hij2)
    have hpi := hgetp i hi t_f hf hfi
    have hpj := hgetp j hj t_o ho hoj
    unfold chunkGE at hrel
    rw [hpi, hpj] at hrel
    linarith

/-- Overdue task for the C6 witness. -/
def overdueTask : TodoItem :=
  { id := "o", title := "O", notes := none, dueDate := some (-1),
    estimatedHours := some 2, completed := false, activityId := none }

/-- Future-dated task for the C6 witness. -/
def futureTask : TodoItem :=
  { id := "f", title := "F", notes := none, dueDate := some 864000000,
    estimatedHours := some 2, completed := false, activityId := none }

/-- C6 witness: with one overdue and one future task of equal effort, the
overdue multiplier is 100 and the queue puts an overdue chunk before a
future chunk. -/
theorem overdue_chunks_first_witness :
    (calculatePriority 0 overdueTask).urgencyMultiplier = 100
    ∧ 2 < (chunkQueue DEFAULT_SCHEDULING_CONFIG 0 [overdueTask, futureTask]).length
    ∧ 0 < (chunkQueue DEFAULT_SCHEDULING_CONFIG 0 [overdueTask, futureTask]).length
    ∧ 0 < 2 := by
  have h := overdue_chunks_first DEFAULT_SCHEDULING_CONFIG 0 [overdueTask, futureTask]
    overdueTask futureTask (-1) 864000000 (by decide)
    (List.mem_cons_self _ _) (List.mem_cons_of_mem _ (List.mem_cons_self _ _))
    rfl (by decide) (by with_unfolding_all decide) rfl (by decide)
    (by with_unfolding_all decide)
  have hlen : 2 < (chunkQueue DEFAULT_SCHEDULING_CONFIG 0 [overdueTask, futureTask]).length := by
    with_unfolding_all decide
  have hlen0 : 0 < (chunkQueue DEFAULT_SCHEDULING_CONFIG 0 [overdueTask, futureTask]).length := by
    omega
  have key : ∀ (k : ℕ)
      (hk : k < (chunkQueue DEFAULT_SCHEDULING_CONFIG 0 [overdueTask, futureTask]).length)
      (sid : String),
      (chunkQueue DEFAULT_SCHEDULING_CONFIG 0 [overdueTask, futureTask])[k]?.map
        (fun c => c.taskId) = some sid →
      ((chunkQueue DEFAULT_SCHEDULING_CONFIG 0 [overdueTask, futureTask]).get
        ⟨k, hk⟩).taskId = sid := by
    intro k hk sid hs
    rw [List.getElem?_eq_getElem hk] at hs
    simpa using hs
  refine ⟨h.1, hlen, hlen0, ?_⟩
  exact h.2 2 0 hlen hlen0 (key 2 hlen _ (by with_unfolding_all decide))
    (key 0 hlen0 _ (by with_unfolding_all decide))

/-- C8: with a fixed scoring clock, two generation runs that differ only
in their identifier and envelope timestamps produce session lists of equal
length whose corresponding sessions agree on startTime, endTime, dayOfWeek,
title, notes and calculatedPriority. -/
theorem generation_deterministic_modulo_stamps (cfg : SchedulingConfig)
    (now s₁ g₁ s₂ g₂ : ℤ) (userId : String) (tasks : List TodoItem)
    (timeBlocks : List TimeBlock) (weekStart : ℤ) :
    (generateSchedule cfg now s₁ g₁ userId tasks timeBlocks weekStart).sessions.length =
      (generateSchedule cfg now s₂ g₂ userId tasks timeBlocks weekStart).sessions.length
    ∧ ∀ (i : ℕ)
        (h₁ : i < (generateSchedule cfg now s₁ g₁ userId tasks
          timeBlocks weekStart).sessions.length)
        (h₂ : i < (generateSchedule cfg now s₂ g₂ userId tasks
          timeBlocks weekStart).sessions.length),
        ((generateSchedule cfg now s₁ g₁ userId tasks timeBlocks
            weekStart).sessions.get ⟨i, h₁⟩).startAbs =
          ((generateSchedule cfg now s₂ g₂ userId tasks timeBlocks
            weekStart).sessions.get ⟨i, h₂⟩).startAbs
        ∧ ((generateSchedule cfg now s₁ g₁ userId tasks timeBlocks
            weekStart).sessions.get ⟨i, h₁⟩).endAbs =
          ((generateSchedule cfg now s₂ g₂ userId tasks timeBlocks
            weekStart).sessions.get ⟨i, h₂⟩).endAbs
        ∧ ((generateSchedule cfg now s₁ g₁ userId tasks timeBlocks
            weekStart).sessions.get ⟨i, h₁⟩).dayOfWeek =
          ((generateSchedule cfg now s₂ g₂ userId tasks timeBlocks
            weekStart).sessions.get ⟨i, h₂⟩).dayOfWeek
        ∧ ((generateSchedule cfg now s₁ g₁ userId tasks timeBlocks
            weekStart).sessions.get ⟨i, h₁⟩).title =
          ((generateSchedule cfg now s₂ g₂ userId tasks timeBlocks
            weekStart).sessions.get ⟨i, h₂⟩).title
        ∧ ((generateSchedule cfg now s₁ g₁ userId tasks timeBlocks
            weekStart).sessions.get ⟨i, h₁⟩).notes =
          ((generateSchedule cfg now s₂ g₂ userId tasks timeBlocks
            weekStart).sessions.get ⟨i, h₂⟩).notes
        ∧ ((generateSchedule cfg now s₁ g₁ userId tasks timeBlocks
            weekStart).sessions.get ⟨i, h₁⟩).calculatedPriority =
          ((generateSchedule cfg now s₂ g₂ userId tasks timeBlocks
            weekStart).sessions.get ⟨i, h₂⟩).calculatedPriority := by
  constructor
  · rw [generateSchedule_sessions, generateSchedule_sessions]
    simp
  · intro i h₁ h₂
    have e₁ : (generateSchedule cfg now s₁ g₁ userId tasks timeBlocks weekStart).sessions =
        (allocLoop (availableSlotsByDayOf cfg timeBlocks) (chunkQueue cfg now tasks) []).map
          (fun p => createStudySession s₁ p.1 p.2) :=
      generateSchedule_sessions cfg now s₁ g₁ userId tasks timeBlocks weekStart
    have e₂ : (generateSchedule cfg now s₂ g₂ userId tasks timeBlocks weekStart).sessions =
        (allocLoop (availableSlotsByDayOf cfg timeBlocks) (chunkQueue cfg now tasks) []).map
          (fun p => createStudySession s₂ p.1 p.2) :=
      generateSchedule_sessions cfg now s₂ g₂ userId tasks timeBlocks weekStart
    have hi : i < (allocLoop (availableSlotsByDayOf cfg timeBlocks)
        (chunkQueue cfg now tasks) []).length := by
      rw [e₁] at h₁
      simpa using h₁
    simp only [List.get_eq_getElem]
    simp only [e₁, e₂, List.getElem_map]
    simp [createStudySession]

end SchedEngine
